import Mathlib

/-!
# Verification of the uniswap swap-event confirmation pipeline

A shallow embedding of the Rust sources (`src/events.rs`, `src/reorg.rs`,
`src/main.rs`) of the swap-event watcher, together with theorems about the
embedded definitions.

Modelling conventions:
* `U64` block numbers and `H256`/`H160` digests are modelled as `Nat`
  (only equality and ordering of digests are used by the code).
* Byte strings are `List Nat` (each entry a byte value).
* Rust `BigInt` is `Int`; `num_integer::Integer::div_rem` is truncating
  division, i.e. `Int.tdiv`/`Int.tmod`.
* The `BTreeMap<U64, ConfirmedBlock>` buffer is a list of key-value pairs in
  ascending key order (the order `BTreeMap::iter` yields).
* Fallible operations return `Option`/`Except`; a Rust `panic!`/`unwrap()`
  on `None` or `process::exit` is modelled by the corresponding failure
  value, as noted at each definition.
-/

namespace UniswapWatch

/-! ## Byte codec (events.rs `ethereum_int_to_bigint`)

`U256::to_big_endian` writes the value as 32 big-endian bytes;
`BigInt::from_bytes_be(Sign::Plus, bytes)` reads them back as an unsigned
arbitrary-precision integer. -/

/-- Big-endian byte serialisation of `v` into `n` bytes, most significant
first (the value is taken modulo `256 ^ n`, as `U256::to_big_endian` does
for its fixed 32-byte width). -/
def toBigEndianBytes : Nat → Nat → List Nat
  | 0, _ => []
  | n + 1, v => toBigEndianBytes n (v / 256) ++ [v % 256]

/-- Rust `BigInt::from_bytes_be(Sign::Plus, _)`: big-endian bytes to an unsigned
integer. -/
def fromBytesBE (bs : List Nat) : Nat :=
  bs.foldl (fun acc b => acc * 256 + b) 0

/-- Function `ethereum_int_to_bigint` (events.rs / main.rs): serialise the `U256`
value to 32 big-endian bytes, read them back as an unsigned integer, and
reinterpret in two's complement: values at or above `2 ^ 255` wrap to
negative by subtracting `2 ^ 256`. -/
def ethereum_int_to_bigint (value : Nat) : Int :=
  let unsigned : Int := (fromBytesBE (toBigEndianBytes 32 value) : Nat)
  if 2 ^ 255 ≤ unsigned then unsigned - 2 ^ 256 else unsigned

/-! ## Decimal rendering (`BigInt::to_string`, events.rs `convert_amount`) -/

/-- Decimal digits of a natural number, most significant first, computed the
way `BigInt`'s decimal formatter does (repeated division by 10).  The first
argument is structural-recursion fuel; `natDecimal` supplies enough. -/
def natDecimalAux : Nat → Nat → List Char
  | 0, _ => []
  | fuel + 1, n =>
    if n < 10 then [Nat.digitChar n]
    else natDecimalAux fuel (n / 10) ++ [Nat.digitChar (n % 10)]

/-- Decimal digit string of a natural number (`to_string` on a non-negative
`BigInt`). -/
def natDecimal (n : Nat) : List Char :=
  natDecimalAux (n + 1) n

/-- Rust `BigInt::to_string`: a leading `'-'` for negative values, then the
decimal digits of the absolute value. -/
def intDecimal (i : Int) : List Char :=
  if i < 0 then '-' :: natDecimal i.natAbs else natDecimal i.natAbs

/-- Rust `str::trim_end_matches('0')`: remove every trailing `'0'` character. -/
def trimTrailingZeros (s : List Char) : List Char :=
  (s.reverse.dropWhile (fun c => c == '0')).reverse

/-- Function `convert_amount` (events.rs / main.rs): truncating `div_rem` of the
amount by `10 ^ decimals`; a zero remainder renders as the bare quotient,
otherwise the quotient, a dot, and the absolute remainder with trailing
zeros trimmed. -/
def convert_amount (amount : Int) (decimals : Nat) : String :=
  let factor : Int := (10 : Int) ^ decimals
  let quotient := amount.tdiv factor
  let remainder := amount.tmod factor
  if remainder = 0 then
    String.mk (intDecimal quotient)
  else
    String.mk (intDecimal quotient ++ '.' :: trimTrailingZeros (natDecimal remainder.natAbs))

/-! ## Event decoding (events.rs `decode_swap_event`) -/

/-- Struct `SwapEvent` (events.rs): decoded swap. Addresses are 20-byte strings. -/
structure SwapEvent where
  sender : List Nat
  receiver : List Nat
  amount0 : Int
  amount1 : Int
  deriving DecidableEq, Repr

/-- A raw log as delivered by the node: a list of 32-byte topic words and a
data payload. -/
structure RawLog where
  topics : List (List Nat)
  data : List Nat
  deriving DecidableEq, Repr

/-- Rust `ethabi::decode(&[ParamType::Int(256), ParamType::Int(256)], data)`:
each `Int(256)` parameter is read as one 32-byte big-endian word, at offsets
0 and 32; decoding fails exactly when the payload is shorter than 64 bytes
(trailing bytes are tolerated by `ethabi::decode`).  On success the token
list always has exactly two entries, both `Token::Int`, so the arity and
type checks in `decode_swap_event` cannot fail. -/
def abiDecodeTwoInt256 (data : List Nat) : Option (Nat × Nat) :=
  if data.length < 64 then none
  else some (fromBytesBE (data.take 32), fromBytesBE ((data.drop 32).take 32))

/-- Function `decode_swap_event` (events.rs / main.rs): require at least three
topics, take the sender and receiver as the last 20 bytes of topics 1 and 2
(`H160::from_slice(&topic.as_bytes()[12..])`), and decode the data payload
as two signed 256-bit integers; any failure skips the log (`None`). -/
def decode_swap_event (log : RawLog) : Option SwapEvent :=
  if log.topics.length < 3 then none
  else
    let sender := (log.topics.getD 1 []).drop 12
    let receiver := (log.topics.getD 2 []).drop 12
    match abiDecodeTwoInt256 log.data with
    | none => none
    | some (w0, w1) =>
      some { sender := sender, receiver := receiver,
             amount0 := ethereum_int_to_bigint w0,
             amount1 := ethereum_int_to_bigint w1 }

/-! ## Direction classification (events.rs / main.rs `print_swap_events`) -/

/-- The direction label computed for each event inside `print_swap_events`:
`amount0 > 0 && amount1 < 0` is a DAI-to-USDC swap, `amount0 < 0 &&
amount1 > 0` a USDC-to-DAI swap, anything else is labelled unknown. -/
def swap_direction (amount0 amount1 : Int) : String :=
  if 0 < amount0 ∧ amount1 < 0 then "DAI -> USDC"
  else if amount0 < 0 ∧ 0 < amount1 then "USDC -> DAI"
  else "Unknown"

/-! ## Confirmation sweep (reorg.rs / main.rs `check_confirmed_blocks`) -/

/-- Struct `ConfirmedBlock` (events.rs): a buffered block, keyed by number in the
pending map, with the hash observed when its logs were fetched. -/
structure ConfirmedBlock where
  number : Nat
  hash : Nat
  events : List SwapEvent
  deriving DecidableEq, Repr

/-- The part of a fetched `Block<H256>` the sweep looks at: its (optional)
hash field. -/
structure FetchedBlock where
  hash : Option Nat
  deriving DecidableEq, Repr

/-- The data carried by the fatal reorg condition (`bail!` in reorg.rs, the
`eprintln` + `process::exit(1)` in main.rs): the block number, the stored
hash, and the freshly fetched hash. -/
structure ReorgError where
  blockNum : Nat
  expected : Nat
  got : Option Nat
  deriving DecidableEq, Repr

/-- Function `check_confirmed_blocks` (reorg.rs / main.rs): walk the pending map in
ascending key order; for each entry at or below the cutoff, fetch the
canonical block by number.  A missing canonical block leaves the entry
alone; a hash mismatch aborts the whole sweep with a `ReorgError` (the
`bail!` / `process::exit(1)`); a match appends the number to the release
list.  The successfully fetched canonical blocks are described by the
oracle `fetch : Nat → Option FetchedBlock` (transport-level fetch errors
abort the sweep via `?` and are outside the claims considered here). -/
def check_confirmed_blocks (fetch : Nat → Option FetchedBlock) :
    List (Nat × ConfirmedBlock) → Nat → Except ReorgError (List Nat)
  | [], _ => .ok []
  | (n, b) :: rest, cutoff =>
    if n ≤ cutoff then
      match fetch n with
      | some fb =>
        if fb.hash ≠ some b.hash then
          .error { blockNum := n, expected := b.hash, got := fb.hash }
        else
          match check_confirmed_blocks fetch rest cutoff with
          | .ok l => .ok (n :: l)
          | .error e => .error e
      | none => check_confirmed_blocks fetch rest cutoff
    else check_confirmed_blocks fetch rest cutoff

/-- The release condition the sweep implements, entry by entry: the key is
at or below the cutoff, the canonical fetch returns a block, and that
block's hash equals the stored hash. -/
def releasedB (fetch : Nat → Option FetchedBlock) (cutoff : Nat)
    (p : Nat × ConfirmedBlock) : Bool :=
  decide (p.1 ≤ cutoff) &&
    match fetch p.1 with
    | some fb => fb.hash == some p.2.hash
    | none => false

/-- The sweep as the main loop runs it (main.rs, the call to
`check_confirmed_blocks` followed by `pending_blocks.remove(&block_num)`
for each released number): on success, the released entries are removed
from the buffer and their numbers reported in list order; on a reorg error
nothing is removed or reported. -/
def sweep_release (fetch : Nat → Option FetchedBlock)
    (pending : List (Nat × ConfirmedBlock)) (cutoff : Nat) :
    Except ReorgError (List (Nat × ConfirmedBlock) × List Nat) :=
  match check_confirmed_blocks fetch pending cutoff with
  | .error e => .error e
  | .ok l => .ok (pending.filter (fun p => !(l.contains p.1)), l)

/-! ## Header intake (main.rs, the body of the subscription loop) -/

/-- An incoming header notification: `BlockHeader` delivers `hash` and
`number` as optional fields. -/
structure BlockHeader where
  hash : Option Nat
  number : Option Nat
  deriving DecidableEq, Repr

/-- Possible dispositions of one incoming header before the sweep runs. -/
inductive HeaderOutcome where
  /-- The process panicked (an `unwrap()` on a missing field). -/
  | panicked : HeaderOutcome
  /-- The header was skipped and the loop moved to the next header. -/
  | skipped : HeaderOutcome
  /-- The header entered the pending store under `number` with `hash`. -/
  | stored : Nat → Nat → HeaderOutcome
  deriving DecidableEq, Repr

/-- How main.rs handles one header notification: `block.hash.unwrap()` is
evaluated first (to scope the log filter), then `block.number.unwrap()`;
each `unwrap()` panics when the field is absent, and otherwise the record
enters the pending store keyed by the number.  There is no skip path. -/
def process_header (h : BlockHeader) : HeaderOutcome :=
  match h.hash with
  | none => .panicked
  | some hh =>
    match h.number with
    | none => .panicked
    | some n => .stored n hh

/-! ## Cutoff computation (main.rs `block_number - U64::from(5u64)`) -/

/-- Subtraction of `web3::types::U64` values (ethereum-types, generated by
the `uint` crate's `construct_uint!`): `Sub` performs `overflowing_sub`
followed by `panic_on_overflow!`, so underflow panics unconditionally — it
does not wrap modulo `2 ^ 64`.  `none` models the panic. -/
def u64_sub (a b : Nat) : Option Nat :=
  if a < b then none else some (a - b)

/-- The cutoff the main loop computes for a head block number before every
sweep: `block_number - U64::from(5u64)`. -/
def confirmed_cutoff_of_head (head : Nat) : Option Nat :=
  u64_sub head 5

/-! ## Lemmas about the byte codec -/

/-- Serialising to `n` big-endian bytes and reading back gives the value
modulo `256 ^ n`. -/
theorem fromBytesBE_toBigEndianBytes (n : Nat) :
    ∀ v : Nat, fromBytesBE (toBigEndianBytes n v) = v % 256 ^ n := by
  induction n with
  | zero => intro v; simp [toBigEndianBytes, fromBytesBE, Nat.mod_one]
  | succ n ih =>
    intro v
    show fromBytesBE (toBigEndianBytes n (v / 256) ++ [v % 256]) = _
    unfold fromBytesBE
    rw [List.foldl_append]
    show fromBytesBE (toBigEndianBytes n (v / 256)) * 256 + v % 256 = v % 256 ^ (n + 1)
    rw [ih]
    have h1 : v / 256 % 256 ^ n = v % (256 * 256 ^ n) / 256 :=
      (Nat.mod_mul_right_div_self v 256 (256 ^ n)).symm
    have h2 : v % 256 = v % (256 * 256 ^ n) % 256 :=
      (Nat.mod_mod_of_dvd v (dvd_mul_right 256 (256 ^ n))).symm
    have h3 : (256 : Nat) ^ (n + 1) = 256 * 256 ^ n := by
      rw [pow_succ, Nat.mul_comm]
    rw [h1, h2, h3]
    have h4 := Nat.div_add_mod (v % (256 * 256 ^ n)) 256
    omega

/-- Function `ethereum_int_to_bigint` on an in-range word equals the two's-complement
reinterpretation of the unsigned value. -/
theorem ethereum_int_to_bigint_eq (u : Nat) (hu : u < 2 ^ 256) :
    ethereum_int_to_bigint u =
      if 2 ^ 255 ≤ u then (u : Int) - 2 ^ 256 else (u : Int) := by
  unfold ethereum_int_to_bigint
  rw [fromBytesBE_toBigEndianBytes]
  have h256 : (256 : Nat) ^ 32 = 2 ^ 256 := by norm_num
  rw [h256, Nat.mod_eq_of_lt hu]
  have hcast : ((2 : Int) ^ 255 ≤ (u : Nat)) ↔ 2 ^ 255 ≤ u := by
    constructor <;> intro h <;> exact_mod_cast h
  by_cases h : 2 ^ 255 ≤ u
  · rw [if_pos (hcast.mpr h), if_pos h]
  · rw [if_neg (fun hc => h (hcast.mp hc)), if_neg h]

/-- C5: for every 32-byte big-endian word with unsigned 256-bit value `u`,
`ethereum_int_to_bigint` returns `u - 2 ^ 256` when `u ≥ 2 ^ 255` and `u`
otherwise; in particular it returns `2 ^ 255 - 1` at `u = 2 ^ 255 - 1` and
`-(2 ^ 255)` at `u = 2 ^ 255`. -/
theorem C5_sign_conversion (u : Nat) (hu : u < 2 ^ 256) :
    (2 ^ 255 ≤ u → ethereum_int_to_bigint u = (u : Int) - 2 ^ 256) ∧
    (u < 2 ^ 255 → ethereum_int_to_bigint u = (u : Int)) ∧
    ethereum_int_to_bigint (2 ^ 255 - 1) = 2 ^ 255 - 1 ∧
    ethereum_int_to_bigint (2 ^ 255) = -(2 ^ 255) := by
  have hlow : (2 : Nat) ^ 255 - 1 < 2 ^ 256 := by
    have : (2 : Nat) ^ 255 < 2 ^ 256 := Nat.pow_lt_pow_right (by omega) (by omega)
    omega
  have hhigh : (2 : Nat) ^ 255 < 2 ^ 256 := Nat.pow_lt_pow_right (by omega) (by omega)
  refine ⟨fun h => ?_, fun h => ?_, ?_, ?_⟩
  · rw [ethereum_int_to_bigint_eq u hu, if_pos h]
  · rw [ethereum_int_to_bigint_eq u hu, if_neg (by omega)]
  · rw [ethereum_int_to_bigint_eq _ hlow, if_neg (by omega)]
    have h1 : (1 : Nat) ≤ 2 ^ 255 := Nat.one_le_two_pow
    push_cast [h1]
  · rw [ethereum_int_to_bigint_eq _ hhigh, if_pos (le_refl _)]
    push_cast

/-- Witness for C5 at the concrete in-range word `u = 5`. -/
theorem C5_sign_conversion_witness :
    (5 : Nat) < 2 ^ 256 ∧
    ((2 ^ 255 ≤ (5 : Nat) → ethereum_int_to_bigint 5 = (5 : Int) - 2 ^ 256) ∧
     ((5 : Nat) < 2 ^ 255 → ethereum_int_to_bigint 5 = (5 : Int)) ∧
     ethereum_int_to_bigint (2 ^ 255 - 1) = 2 ^ 255 - 1 ∧
     ethereum_int_to_bigint (2 ^ 255) = -(2 ^ 255)) :=
  ⟨by norm_num, C5_sign_conversion 5 (by norm_num)⟩

/-! ## Lemmas about decimal rendering -/

/-- The fuel argument of `natDecimalAux` is irrelevant once it exceeds the
value being rendered. -/
theorem natDecimalAux_fuel (f1 : Nat) :
    ∀ f2 n : Nat, n < f1 → n < f2 → natDecimalAux f1 n = natDecimalAux f2 n := by
  induction f1 with
  | zero => intro f2 n h1 _; omega
  | succ f1 ih =>
    intro f2 n h1 h2
    match f2 with
    | 0 => omega
    | f2 + 1 =>
      simp only [natDecimalAux]
      by_cases h10 : n < 10
      · simp [h10]
      · rw [if_neg h10, if_neg h10]
        have hd : n / 10 < n := Nat.div_lt_self (by omega) (by omega)
        rw [ih f2 (n / 10) (by omega) (by omega)]

/-- Rendering a single-digit number. -/
theorem natDecimal_small (n : Nat) (h : n < 10) :
    natDecimal n = [Nat.digitChar n] := by
  simp [natDecimal, natDecimalAux, h]

/-- The recursion `natDecimal` implements: high digits first, last digit
last. -/
theorem natDecimal_step (n : Nat) (h : 10 ≤ n) :
    natDecimal n = natDecimal (n / 10) ++ [Nat.digitChar (n % 10)] := by
  have hd : n / 10 < n := Nat.div_lt_self (by omega) (by omega)
  have h1 : natDecimalAux (n + 1) n = natDecimalAux n (n / 10) ++ [Nat.digitChar (n % 10)] := by
    conv_lhs => rw [natDecimalAux]
    rw [if_neg (by omega)]
  unfold natDecimal
  rw [h1, natDecimalAux_fuel n (n / 10 + 1) (n / 10) hd (by omega)]

/-- Numeric value of a decimal digit string (digits are ASCII `'0'`-`'9'`,
code points 48-57). -/
def decimalValue (s : List Char) : Nat :=
  s.foldl (fun acc c => acc * 10 + (c.toNat - 48)) 0

/-- Helper: `decimalValue` over an appended final digit. -/
theorem decimalValue_append_digit (s : List Char) (c : Char) :
    decimalValue (s ++ [c]) = decimalValue s * 10 + (c.toNat - 48) := by
  unfold decimalValue
  rw [List.foldl_append]
  rfl

/-- Rendering with `natDecimal` really is decimal: folding
the digits back recovers the number. -/
theorem decimalValue_natDecimal : ∀ n : Nat, decimalValue (natDecimal n) = n := by
  intro n
  induction n using Nat.strong_induction_on with
  | _ n ih =>
    by_cases h10 : n < 10
    · rw [natDecimal_small n h10]
      have hsmall : ∀ m : Nat, m < 10 → decimalValue [Nat.digitChar m] = m := by decide
      exact hsmall n h10
    · rw [natDecimal_step n (by omega), decimalValue_append_digit]
      rw [ih (n / 10) (Nat.div_lt_self (by omega) (by omega))]
      have hdig : ∀ m : Nat, m < 10 → (Nat.digitChar m).toNat - 48 = m := by decide
      rw [hdig (n % 10) (Nat.mod_lt _ (by omega))]
      omega

/-- A nonzero number's decimal rendering contains a digit other than
`'0'`. -/
theorem natDecimal_exists_nonzero : ∀ n : Nat, n ≠ 0 → ∃ c ∈ natDecimal n, c ≠ '0' := by
  intro n
  induction n using Nat.strong_induction_on with
  | _ n ih =>
    intro hn
    by_cases h10 : n < 10
    · refine ⟨Nat.digitChar n, by rw [natDecimal_small n h10]; exact List.mem_singleton.mpr rfl, ?_⟩
      have hdig : ∀ m : Nat, m < 10 → m ≠ 0 → Nat.digitChar m ≠ '0' := by decide
      exact hdig n h10 hn
    · rw [natDecimal_step n (by omega)]
      by_cases hm : n % 10 = 0
      · obtain ⟨c, hc, hc0⟩ :=
          ih (n / 10) (Nat.div_lt_self (by omega) (by omega)) (by omega)
        exact ⟨c, List.mem_append_left _ hc, hc0⟩
      · refine ⟨Nat.digitChar (n % 10), List.mem_append_right _ (List.mem_singleton.mpr rfl), ?_⟩
        have hdig : ∀ m : Nat, m < 10 → m ≠ 0 → Nat.digitChar m ≠ '0' := by decide
        exact hdig (n % 10) (Nat.mod_lt _ (by omega)) hm

/-- Trimming trailing zeros from the rendering of a nonzero number keeps at
least one digit. -/
theorem trimTrailingZeros_natDecimal_ne_nil (n : Nat) (hn : n ≠ 0) :
    trimTrailingZeros (natDecimal n) ≠ [] := by
  intro h
  obtain ⟨c, hc, hc0⟩ := natDecimal_exists_nonzero n hn
  unfold trimTrailingZeros at h
  rw [List.reverse_eq_nil_iff, List.dropWhile_eq_nil_iff] at h
  have := h c (List.mem_reverse.mpr hc)
  simp only [beq_iff_eq] at this
  exact hc0 this

/-- C6: `convert_amount` renders the truncating quotient by `10 ^ d` plainly
when the remainder is zero, and otherwise renders the quotient, a dot, and
the absolute remainder with trailing zeros stripped (at least one digit
kept); in particular `convert_amount (1234 * 10 ^ 18) 18 = "1234"`,
`convert_amount (15 * 10 ^ 17) 18 = "1.5"` and
`convert_amount (-15 * 10 ^ 17) 18 = "-1.5"`. -/
theorem C6_convert_amount (a : Int) (d : Nat) :
    (a.tmod (10 ^ d) = 0 →
      convert_amount a d = String.mk (intDecimal (a.tdiv (10 ^ d)))) ∧
    (a.tmod (10 ^ d) ≠ 0 →
      convert_amount a d =
        String.mk (intDecimal (a.tdiv (10 ^ d)) ++
          '.' :: trimTrailingZeros (natDecimal (a.tmod (10 ^ d)).natAbs)) ∧
      trimTrailingZeros (natDecimal (a.tmod (10 ^ d)).natAbs) ≠ []) ∧
    convert_amount (1234 * 10 ^ 18) 18 = "1234" ∧
    convert_amount (15 * 10 ^ 17) 18 = "1.5" ∧
    convert_amount ((-15) * 10 ^ 17) 18 = "-1.5" := by
  refine ⟨fun h => ?_, fun h => ⟨?_, ?_⟩, by decide, by decide, by decide⟩
  · simp only [convert_amount]
    rw [if_pos h]
  · simp only [convert_amount]
    rw [if_neg h]
  · exact trimTrailingZeros_natDecimal_ne_nil _ (Int.natAbs_ne_zero.mpr h)

/-- Witness for C6 on the nonzero-remainder branch at
`a = 15 * 10 ^ 17`, `d = 18`. -/
theorem C6_convert_amount_witness :
    convert_amount (15 * 10 ^ 17) 18 =
      String.mk (intDecimal ((15 * 10 ^ 17 : Int).tdiv (10 ^ 18)) ++
        '.' :: trimTrailingZeros (natDecimal ((15 * 10 ^ 17 : Int).tmod (10 ^ 18)).natAbs)) ∧
    trimTrailingZeros (natDecimal ((15 * 10 ^ 17 : Int).tmod (10 ^ 18)).natAbs) ≠ [] :=
  (C6_convert_amount (15 * 10 ^ 17) 18).2.1 (by decide)

/-- C10: for `d ≥ 1` and `-(10 ^ d) < a < 0`, the truncating quotient is 0
and only the absolute remainder is printed, so the rendering of `a` equals
the rendering of `-a` — the minus sign is lost. -/
theorem C10_sign_loss (a : Int) (d : Nat) (hd : 1 ≤ d)
    (h1 : -(10 ^ d) < a) (h2 : a < 0) :
    convert_amount a d = convert_amount (-a) d := by
  have hf : (0 : Int) < 10 ^ d := by positivity
  have hna : (0 : Int) ≤ -a := by linarith
  have hlt : -a < 10 ^ d := by linarith
  have htd : (-a).tdiv (10 ^ d) = 0 := Int.tdiv_eq_zero_of_lt hna hlt
  have htd2 : a.tdiv (10 ^ d) = 0 := by
    have hneg := Int.neg_tdiv (-a) (10 ^ d)
    rw [neg_neg] at hneg
    rw [hneg, htd, neg_zero]
  have htm : a.tmod (10 ^ d) = a := by
    have hid := Int.tmod_add_tdiv a (10 ^ d)
    rw [htd2] at hid
    simpa using hid
  have htm2 : (-a).tmod (10 ^ d) = -a := by
    have hid := Int.tmod_add_tdiv (-a) (10 ^ d)
    rw [htd] at hid
    simpa using hid
  simp only [convert_amount]
  rw [htm, htm2, htd2, htd]
  rw [if_neg (show ¬a = 0 by omega), if_neg (show ¬(-a) = 0 by omega)]
  rw [Int.natAbs_neg]

/-- Witness for C10 at `a = -5`, `d = 1` (both sides render `"0.5"`). -/
theorem C10_sign_loss_witness :
    convert_amount (-5) 1 = convert_amount (-(-5)) 1 :=
  C10_sign_loss (-5) 1 (by decide) (by decide) (by decide)

/-- C8: the direction label is `"DAI -> USDC"` exactly when
`amount0 > 0 ∧ amount1 < 0`, `"USDC -> DAI"` exactly when
`amount0 < 0 ∧ amount1 > 0`, and `"Unknown"` for every other sign
combination, including when either amount is zero. -/
theorem C8_direction (a0 a1 : Int) :
    (swap_direction a0 a1 = "DAI -> USDC" ↔ 0 < a0 ∧ a1 < 0) ∧
    (swap_direction a0 a1 = "USDC -> DAI" ↔ a0 < 0 ∧ 0 < a1) ∧
    (swap_direction a0 a1 = "Unknown" ↔
      ¬(0 < a0 ∧ a1 < 0) ∧ ¬(a0 < 0 ∧ 0 < a1)) ∧
    (a0 = 0 ∨ a1 = 0 → swap_direction a0 a1 = "Unknown") := by
  have hne1 : ("DAI -> USDC" : String) ≠ "USDC -> DAI" := by decide
  have hne2 : ("DAI -> USDC" : String) ≠ "Unknown" := by decide
  have hne3 : ("USDC -> DAI" : String) ≠ "Unknown" := by decide
  unfold swap_direction
  split_ifs with hA hB
  · exact ⟨by simp [hA], ⟨fun h => absurd h hne1, fun h => absurd hA (by omega)⟩,
      ⟨fun h => absurd h hne2, fun h => absurd hA h.1⟩, fun h => absurd hA (by omega)⟩
  · exact ⟨⟨fun h => absurd h.symm hne1, fun h => absurd h hA⟩, by simp [hB],
      ⟨fun h => absurd h hne3, fun h => absurd hB h.2⟩, fun h => absurd hB (by omega)⟩
  · exact ⟨⟨fun h => absurd h.symm hne2, fun h => absurd h hA⟩,
      ⟨fun h => absurd h.symm hne3, fun h => absurd h hB⟩,
      by simp [hA, hB], fun _ => rfl⟩

/-- Witness for C8's zero case at `(a0, a1) = (0, 0)`. -/
theorem C8_direction_witness :
    swap_direction 0 0 = "Unknown" :=
  (C8_direction 0 0).2.2.2 (Or.inl rfl)

/-- C7: the decoder skips exactly when the log has fewer than 3 topics or
its data fails to decode as two ABI int256 words (payload shorter than 64
bytes); otherwise it returns the event whose sender and receiver are the
low-order 20 bytes of topics 1 and 2 and whose amounts are the two decoded
signed 256-bit integers, with no other validation. -/
theorem C7_decode (log : RawLog)
    (hlen : ∀ t ∈ log.topics, t.length = 32) :
    (decode_swap_event log = none ↔
      log.topics.length < 3 ∨ log.data.length < 64) ∧
    (3 ≤ log.topics.length → 64 ≤ log.data.length →
      decode_swap_event log = some
        { sender := (log.topics.getD 1 []).drop 12,
          receiver := (log.topics.getD 2 []).drop 12,
          amount0 := ethereum_int_to_bigint (fromBytesBE (log.data.take 32)),
          amount1 := ethereum_int_to_bigint (fromBytesBE ((log.data.drop 32).take 32)) } ∧
      ((log.topics.getD 1 []).drop 12).length = 20 ∧
      ((log.topics.getD 2 []).drop 12).length = 20) := by
  constructor
  · unfold decode_swap_event abiDecodeTwoInt256
    by_cases h3 : log.topics.length < 3
    · simp [h3]
    · rw [if_neg h3]
      by_cases h64 : log.data.length < 64
      · simp [h64]
      · simp [h3, h64]
  · intro h3 h64
    refine ⟨?_, ?_, ?_⟩
    · unfold decode_swap_event abiDecodeTwoInt256
      rw [if_neg (by omega), if_neg (by omega)]
    · have h1 : 1 < log.topics.length := by omega
      rw [List.getD_eq_getElem log.topics [] h1, List.length_drop,
        hlen _ (List.getElem_mem h1)]
    · have h2 : 2 < log.topics.length := by omega
      rw [List.getD_eq_getElem log.topics [] h2, List.length_drop,
        hlen _ (List.getElem_mem h2)]

/-- Witness for C7 at a concrete well-formed log: three 32-byte topics and a
64-byte payload. -/
theorem C7_decode_witness :
    (decode_swap_event
        { topics := [List.replicate 32 0, List.replicate 32 1, List.replicate 32 2],
          data := List.replicate 64 0 } = none ↔
      ([List.replicate 32 0, List.replicate 32 1, List.replicate 32 2].length < 3 ∨
        (List.replicate 64 (0 : Nat)).length < 64)) ∧
    (3 ≤ [List.replicate 32 0, List.replicate 32 1, List.replicate 32 2].length →
      64 ≤ (List.replicate 64 (0 : Nat)).length →
      decode_swap_event
          { topics := [List.replicate 32 0, List.replicate 32 1, List.replicate 32 2],
            data := List.replicate 64 0 } = some
        { sender := (([List.replicate 32 0, List.replicate 32 1,
              List.replicate 32 2].getD 1 []).drop 12),
          receiver := (([List.replicate 32 0, List.replicate 32 1,
              List.replicate 32 2].getD 2 []).drop 12),
          amount0 := ethereum_int_to_bigint (fromBytesBE ((List.replicate 64 (0 : Nat)).take 32)),
          amount1 := ethereum_int_to_bigint
            (fromBytesBE (((List.replicate 64 (0 : Nat)).drop 32).take 32)) } ∧
      (([List.replicate 32 0, List.replicate 32 1,
          List.replicate 32 2].getD 1 []).drop 12).length = 20 ∧
      (([List.replicate 32 0, List.replicate 32 1,
          List.replicate 32 2].getD 2 []).drop 12).length = 20) :=
  C7_decode
    { topics := [List.replicate 32 0, List.replicate 32 1, List.replicate 32 2],
      data := List.replicate 64 0 }
    (by decide)

/-! ## Lemmas about the confirmation sweep -/

/-- Sweep unfolding: an entry above the cutoff is passed over. -/
theorem check_cons_not_candidate (fetch : Nat → Option FetchedBlock)
    {n : Nat} {b : ConfirmedBlock} {rest : List (Nat × ConfirmedBlock)} {cutoff : Nat}
    (hc : ¬n ≤ cutoff) :
    check_confirmed_blocks fetch ((n, b) :: rest) cutoff =
      check_confirmed_blocks fetch rest cutoff := by
  simp only [check_confirmed_blocks]
  rw [if_neg hc]

/-- Sweep unfolding: a candidate whose canonical fetch returns no block is
passed over. -/
theorem check_cons_no_block (fetch : Nat → Option FetchedBlock)
    {n : Nat} {b : ConfirmedBlock} {rest : List (Nat × ConfirmedBlock)} {cutoff : Nat}
    (hc : n ≤ cutoff) (hf : fetch n = none) :
    check_confirmed_blocks fetch ((n, b) :: rest) cutoff =
      check_confirmed_blocks fetch rest cutoff := by
  simp only [check_confirmed_blocks]
  rw [if_pos hc]
  simp only [hf]

/-- Sweep unfolding: a candidate whose canonical hash mismatches aborts the
sweep with the reorg error built from its number and both hashes. -/
theorem check_cons_mismatch (fetch : Nat → Option FetchedBlock)
    {n : Nat} {b : ConfirmedBlock} {rest : List (Nat × ConfirmedBlock)} {cutoff : Nat}
    {fb : FetchedBlock}
    (hc : n ≤ cutoff) (hf : fetch n = some fb) (hh : fb.hash ≠ some b.hash) :
    check_confirmed_blocks fetch ((n, b) :: rest) cutoff =
      .error { blockNum := n, expected := b.hash, got := fb.hash } := by
  simp only [check_confirmed_blocks]
  rw [if_pos hc]
  simp only [hf]
  rw [if_pos hh]

/-- Sweep unfolding: a matching candidate is released in front of whatever
the rest of the sweep releases. -/
theorem check_cons_match_ok (fetch : Nat → Option FetchedBlock)
    {n : Nat} {b : ConfirmedBlock} {rest : List (Nat × ConfirmedBlock)} {cutoff : Nat}
    {fb : FetchedBlock} {l : List Nat}
    (hc : n ≤ cutoff) (hf : fetch n = some fb) (hh : fb.hash = some b.hash)
    (hrec : check_confirmed_blocks fetch rest cutoff = .ok l) :
    check_confirmed_blocks fetch ((n, b) :: rest) cutoff = .ok (n :: l) := by
  simp only [check_confirmed_blocks]
  rw [if_pos hc]
  simp only [hf]
  rw [if_neg (by simp [hh])]
  simp only [hrec]

/-- Sweep unfolding: an error later in the sweep propagates past a matching
candidate. -/
theorem check_cons_match_err (fetch : Nat → Option FetchedBlock)
    {n : Nat} {b : ConfirmedBlock} {rest : List (Nat × ConfirmedBlock)} {cutoff : Nat}
    {fb : FetchedBlock} {e : ReorgError}
    (hc : n ≤ cutoff) (hf : fetch n = some fb) (hh : fb.hash = some b.hash)
    (hrec : check_confirmed_blocks fetch rest cutoff = .error e) :
    check_confirmed_blocks fetch ((n, b) :: rest) cutoff = .error e := by
  simp only [check_confirmed_blocks]
  rw [if_pos hc]
  simp only [hf]
  rw [if_neg (by simp [hh])]
  simp only [hrec]

/-- A successful sweep returns exactly the keys of the entries satisfying
the release condition, in buffer order. -/
theorem check_ok_releases (fetch : Nat → Option FetchedBlock) :
    ∀ (pending : List (Nat × ConfirmedBlock)) (cutoff : Nat) (l : List Nat),
      check_confirmed_blocks fetch pending cutoff = .ok l →
      l = (pending.filter (releasedB fetch cutoff)).map Prod.fst := by
  intro pending
  induction pending with
  | nil =>
    intro cutoff l h
    simp only [check_confirmed_blocks] at h
    cases h
    simp
  | cons p rest ih =>
    obtain ⟨n, b⟩ := p
    intro cutoff l h
    by_cases hc : n ≤ cutoff
    · cases hf : fetch n with
      | none =>
        rw [check_cons_no_block fetch hc hf] at h
        rw [ih cutoff l h]
        have hrB : releasedB fetch cutoff (n, b) = false := by
          simp [releasedB, hf]
        simp [List.filter_cons, hrB]
      | some fb =>
        by_cases hh : fb.hash = some b.hash
        · cases hrec : check_confirmed_blocks fetch rest cutoff with
          | ok l' =>
            rw [check_cons_match_ok fetch hc hf hh hrec] at h
            cases h
            have hrB : releasedB fetch cutoff (n, b) = true := by
              simp [releasedB, hf, hh, hc]
            rw [ih cutoff l' hrec]
            simp [List.filter_cons, hrB]
          | error e =>
            rw [check_cons_match_err fetch hc hf hh hrec] at h
            cases h
        · rw [check_cons_mismatch fetch hc hf hh] at h
          cases h
    · rw [check_cons_not_candidate fetch hc] at h
      rw [ih cutoff l h]
      have hrB : releasedB fetch cutoff (n, b) = false := by
        simp [releasedB, hc]
      simp [List.filter_cons, hrB]

/-- If some candidate's canonical hash mismatches, the sweep aborts with a
`ReorgError` built from a mismatching candidate's number and hashes. -/
theorem check_error_of_mismatch (fetch : Nat → Option FetchedBlock) :
    ∀ (pending : List (Nat × ConfirmedBlock)) (cutoff : Nat)
      (n : Nat) (b : ConfirmedBlock) (fb : FetchedBlock),
      (n, b) ∈ pending → n ≤ cutoff → fetch n = some fb → fb.hash ≠ some b.hash →
      ∃ m bm fbm, (m, bm) ∈ pending ∧ m ≤ cutoff ∧ fetch m = some fbm ∧
        fbm.hash ≠ some bm.hash ∧
        check_confirmed_blocks fetch pending cutoff =
          .error { blockNum := m, expected := bm.hash, got := fbm.hash } := by
  intro pending
  induction pending with
  | nil =>
    intro cutoff n b fb hmem
    cases hmem
  | cons p rest ih =>
    obtain ⟨k, bk⟩ := p
    intro cutoff n b fb hmem hcut hfetch hmis
    by_cases hc : k ≤ cutoff
    · cases hf : fetch k with
      | some fbk =>
        by_cases hh : fbk.hash = some bk.hash
        · -- head entry confirms; the mismatch is further down
          have hmem' : (n, b) ∈ rest := by
            rcases List.mem_cons.mp hmem with heq | h
            · exfalso
              injection heq with h1 h2
              subst h1; subst h2
              rw [hfetch] at hf
              injection hf with h3
              subst h3
              exact hmis hh
            · exact h
          obtain ⟨m, bm, fbm, hm1, hm2, hm3, hm4, hm5⟩ :=
            ih cutoff n b fb hmem' hcut hfetch hmis
          exact ⟨m, bm, fbm, List.mem_cons_of_mem _ hm1, hm2, hm3, hm4,
            check_cons_match_err fetch hc hf hh hm5⟩
        · -- the head entry itself mismatches
          exact ⟨k, bk, fbk, List.mem_cons_self _ _, hc, hf, hh,
            check_cons_mismatch fetch hc hf hh⟩
      | none =>
        have hmem' : (n, b) ∈ rest := by
          rcases List.mem_cons.mp hmem with heq | h
          · exfalso
            injection heq with h1 h2
            subst h1
            rw [hfetch] at hf
            cases hf
          · exact h
        obtain ⟨m, bm, fbm, hm1, hm2, hm3, hm4, hm5⟩ :=
          ih cutoff n b fb hmem' hcut hfetch hmis
        refine ⟨m, bm, fbm, List.mem_cons_of_mem _ hm1, hm2, hm3, hm4, ?_⟩
        rw [check_cons_no_block fetch hc hf]
        exact hm5
    · have hmem' : (n, b) ∈ rest := by
        rcases List.mem_cons.mp hmem with heq | h
        · exfalso
          injection heq with h1 h2
          subst h1
          exact hc hcut
        · exact h
      obtain ⟨m, bm, fbm, hm1, hm2, hm3, hm4, hm5⟩ :=
        ih cutoff n b fb hmem' hcut hfetch hmis
      refine ⟨m, bm, fbm, List.mem_cons_of_mem _ hm1, hm2, hm3, hm4, ?_⟩
      rw [check_cons_not_candidate fetch hc]
      exact hm5

/-- In a buffer with strictly ascending keys, two entries with the same key
are the same entry. -/
theorem pairwise_keys_inj :
    ∀ {pending : List (Nat × ConfirmedBlock)},
      pending.Pairwise (fun p q => p.1 < q.1) →
      ∀ p ∈ pending, ∀ q ∈ pending, p.1 = q.1 → p = q := by
  intro pending
  induction pending with
  | nil => intro _ p hp; cases hp
  | cons x rest ih =>
    intro h p hp q hq hpq
    rcases List.pairwise_cons.mp h with ⟨hx, hrest⟩
    rcases List.mem_cons.mp hp with rfl | hp' <;> rcases List.mem_cons.mp hq with rfl | hq'
    · rfl
    · exact absurd hpq (by have := hx q hq'; omega)
    · exact absurd hpq (by have := hx p hp'; omega)
    · exact ih hrest p hp' q hq' hpq

/-- C1: if any buffered block at or below the cutoff has a canonical block
whose hash differs from the stored hash, the sweep aborts with a fatal
reorg error carrying the number and both hashes of a mismatching candidate,
and the caller releases and removes nothing: `sweep_release` returns that
same error instead of a buffer/release pair. -/
theorem C1_reorg_fatal (fetch : Nat → Option FetchedBlock)
    (pending : List (Nat × ConfirmedBlock)) (cutoff : Nat)
    (n : Nat) (b : ConfirmedBlock) (fb : FetchedBlock)
    (hmem : (n, b) ∈ pending) (hcut : n ≤ cutoff)
    (hfetch : fetch n = some fb) (hmis : fb.hash ≠ some b.hash) :
    ∃ m bm fbm, (m, bm) ∈ pending ∧ m ≤ cutoff ∧ fetch m = some fbm ∧
      fbm.hash ≠ some bm.hash ∧
      check_confirmed_blocks fetch pending cutoff =
        .error { blockNum := m, expected := bm.hash, got := fbm.hash } ∧
      sweep_release fetch pending cutoff =
        .error { blockNum := m, expected := bm.hash, got := fbm.hash } := by
  obtain ⟨m, bm, fbm, hm1, hm2, hm3, hm4, hm5⟩ :=
    check_error_of_mismatch fetch pending cutoff n b fb hmem hcut hfetch hmis
  refine ⟨m, bm, fbm, hm1, hm2, hm3, hm4, hm5, ?_⟩
  unfold sweep_release
  rw [hm5]

/-- Witness for C1: a single buffered block whose stored hash 10 disagrees
with the canonical hash 99. -/
theorem C1_reorg_fatal_witness :
    ∃ m bm fbm,
      (m, bm) ∈ [(1, ({ number := 1, hash := 10, events := [] } : ConfirmedBlock))] ∧
      m ≤ 5 ∧
      (fun _ : Nat => some ({ hash := some 99 } : FetchedBlock)) m = some fbm ∧
      fbm.hash ≠ some bm.hash ∧
      check_confirmed_blocks (fun _ => some { hash := some 99 })
          [(1, { number := 1, hash := 10, events := [] })] 5 =
        .error { blockNum := m, expected := bm.hash, got := fbm.hash } ∧
      sweep_release (fun _ => some { hash := some 99 })
          [(1, { number := 1, hash := 10, events := [] })] 5 =
        .error { blockNum := m, expected := bm.hash, got := fbm.hash } :=
  C1_reorg_fatal (fun _ => some { hash := some 99 })
    [(1, { number := 1, hash := 10, events := [] })] 5
    1 { number := 1, hash := 10, events := [] } { hash := some 99 }
    (List.mem_singleton.mpr rfl) (by decide) rfl (by decide)

/-- C2: in a sweep with head `H ≥ 5` (cutoff `H - 5`), a buffered record
whose number exceeds the cutoff, or whose canonical fetch returns no block,
is not released and stays in the buffer unchanged after the caller removes
the released numbers. -/
theorem C2_untouched (fetch : Nat → Option FetchedBlock)
    (pending : List (Nat × ConfirmedBlock)) (H : Nat) (l : List Nat)
    (h5 : 5 ≤ H)
    (hok : check_confirmed_blocks fetch pending (H - 5) = .ok l)
    (n : Nat) (b : ConfirmedBlock) (hmem : (n, b) ∈ pending)
    (hcase : H - 5 < n ∨ (n ≤ H - 5 ∧ fetch n = none)) :
    n ∉ l ∧
    sweep_release fetch pending (H - 5) =
      .ok (pending.filter (fun p => !(l.contains p.1)), l) ∧
    (n, b) ∈ pending.filter (fun p => !(l.contains p.1)) := by
  have hnl : n ∉ l := by
    intro hin
    rw [check_ok_releases fetch pending (H - 5) l hok] at hin
    obtain ⟨q, hq, hq1⟩ := List.mem_map.mp hin
    have hqmem := (List.mem_filter.mp hq).1
    have hqrB := (List.mem_filter.mp hq).2
    rw [releasedB, Bool.and_eq_true] at hqrB
    obtain ⟨hqc, hqf⟩ := hqrB
    rw [hq1] at hqc hqf
    rcases hcase with hgt | ⟨_, hnone⟩
    · exact absurd (of_decide_eq_true hqc) (by omega)
    · rw [hnone] at hqf
      cases hqf
  refine ⟨hnl, ?_, ?_⟩
  · unfold sweep_release
    rw [hok]
  · rw [List.mem_filter]
    refine ⟨hmem, ?_⟩
    simp only [Bool.not_eq_eq_eq_not, Bool.not_true, Bool.not_eq_true']
    exact Bool.eq_false_iff.mpr fun hcon => hnl (List.elem_iff.mp hcon)

/-- Witness for C2: head 10 (cutoff 5), one buffered block at 6, no
canonical blocks available. -/
theorem C2_untouched_witness :
    (6 : Nat) ∉ ([] : List Nat) ∧
    sweep_release (fun _ => none)
        [(6, ({ number := 6, hash := 7, events := [] } : ConfirmedBlock))] (10 - 5) =
      .ok ([(6, ({ number := 6, hash := 7, events := [] } : ConfirmedBlock))].filter
            (fun p => !(([] : List Nat).contains p.1)), []) ∧
    (6, ({ number := 6, hash := 7, events := [] } : ConfirmedBlock)) ∈
      [(6, ({ number := 6, hash := 7, events := [] } : ConfirmedBlock))].filter
        (fun p => !(([] : List Nat).contains p.1)) :=
  C2_untouched (fun _ => none)
    [(6, { number := 6, hash := 7, events := [] })] 10 []
    (by decide) rfl 6 { number := 6, hash := 7, events := [] }
    (List.mem_singleton.mpr rfl) (Or.inl (by decide))

/-- C3: when a sweep over a buffer with strictly ascending keys succeeds,
the release list is exactly the keys of the candidate entries whose
canonical hash matched, in strictly ascending order, and the caller removes
exactly those entries from the buffer. -/
theorem C3_release_exact (fetch : Nat → Option FetchedBlock)
    (pending : List (Nat × ConfirmedBlock)) (cutoff : Nat) (l : List Nat)
    (hsorted : pending.Pairwise (fun p q => p.1 < q.1))
    (hok : check_confirmed_blocks fetch pending cutoff = .ok l) :
    l = (pending.filter (releasedB fetch cutoff)).map Prod.fst ∧
    l.Pairwise (· < ·) ∧
    sweep_release fetch pending cutoff =
      .ok (pending.filter (fun p => !(releasedB fetch cutoff p)), l) := by
  have hl := check_ok_releases fetch pending cutoff l hok
  refine ⟨hl, ?_, ?_⟩
  · rw [hl, List.pairwise_map]
    exact hsorted.filter _
  · unfold sweep_release
    simp only [hok]
    have hpt : ∀ p ∈ pending, (!(l.contains p.1)) = (!(releasedB fetch cutoff p)) := by
      intro p hp
      congr 1
      by_cases hrB : releasedB fetch cutoff p = true
      · rw [hrB]
        rw [hl]
        have : p.1 ∈ (pending.filter (releasedB fetch cutoff)).map Prod.fst :=
          List.mem_map_of_mem _ (List.mem_filter.mpr ⟨hp, hrB⟩)
        exact List.elem_iff.mpr this
      · rw [Bool.eq_false_iff.mpr hrB]
        rw [Bool.eq_false_iff]
        intro hcon
        have hpin : p.1 ∈ l := List.elem_iff.mp hcon
        rw [hl] at hpin
        obtain ⟨q, hq, hq1⟩ := List.mem_map.mp hpin
        have hqmem := (List.mem_filter.mp hq).1
        have hqrB := (List.mem_filter.mp hq).2
        have : q = p := pairwise_keys_inj hsorted q hqmem p hp hq1
        rw [this] at hqrB
        exact hrB hqrB
    rw [List.filter_congr hpt]

/-- Witness for C3: blocks 1 (candidate, hash matches) and 7 (above the
cutoff 5); block 1 is released and removed, block 7 stays. -/
theorem C3_release_exact_witness :
    [1] = ([(1, ({ number := 1, hash := 10, events := [] } : ConfirmedBlock)),
           (7, ({ number := 7, hash := 20, events := [] } : ConfirmedBlock))].filter
            (releasedB (fun k => if k = 1 then some { hash := some 10 } else none) 5)).map
          Prod.fst ∧
    ([1] : List Nat).Pairwise (· < ·) ∧
    sweep_release (fun k => if k = 1 then some { hash := some 10 } else none)
        [(1, { number := 1, hash := 10, events := [] }),
         (7, { number := 7, hash := 20, events := [] })] 5 =
      .ok ([(1, ({ number := 1, hash := 10, events := [] } : ConfirmedBlock)),
            (7, ({ number := 7, hash := 20, events := [] } : ConfirmedBlock))].filter
              (fun p => !(releasedB (fun k => if k = 1 then some { hash := some 10 } else none)
                5 p)), [1]) :=
  C3_release_exact (fun k => if k = 1 then some { hash := some 10 } else none)
    [(1, { number := 1, hash := 10, events := [] }),
     (7, { number := 7, hash := 20, events := [] })] 5 [1]
    (by simp) rfl

/-- C4 counterexample: a header with no hash is not skipped — the pipeline
panics (`block.hash.unwrap()`), contradicting the claim that such a header
is skipped with a warning and processing continues. -/
theorem C4_counterexample :
    process_header { hash := none, number := some 7 } = HeaderOutcome.panicked ∧
    HeaderOutcome.panicked ≠ HeaderOutcome.skipped :=
  ⟨rfl, by decide⟩

/-- C4 amended: an incoming header lacking its hash or its number makes the
pipeline panic (the `unwrap()` calls in the loop body) before anything
enters the pending store; the header is indeed never stored, but the
pipeline fails rather than skipping the header and continuing. -/
theorem C4_header_panics (h : BlockHeader)
    (hmiss : h.hash = none ∨ h.number = none) :
    process_header h = HeaderOutcome.panicked := by
  obtain ⟨hh, hn⟩ := h
  rcases hmiss with hm | hm <;> simp only at hm <;> subst hm
  · rfl
  · cases hh <;> rfl

/-- Witness for the amended C4 at a header carrying a hash but no number. -/
theorem C4_header_panics_witness :
    process_header { hash := some 3, number := none } = HeaderOutcome.panicked :=
  C4_header_panics { hash := some 3, number := none } (Or.inr rfl)

/-- C9 counterexample: at head number 3 the cutoff computation does not
produce `(3 - 5) mod 2 ^ 64 = 2 ^ 64 - 2` — the `uint`-crate subtraction
underflow panics instead, so no sweep with a wrapped cutoff ever runs. -/
theorem C9_counterexample :
    confirmed_cutoff_of_head 3 = none ∧
    confirmed_cutoff_of_head 3 ≠ some (2 ^ 64 - 2) := by
  constructor <;> decide

/-- C9 amended: the cutoff computation `block_number - U64::from(5)` does
not guard against underflow, but `U64` subtraction panics rather than
wrapping: for every head number below 5 the pipeline aborts before the
sweep (so the confirmation depth is never silently bypassed), and for every
head number at or above 5 the cutoff is exactly `H - 5`. -/
theorem C9_cutoff_panics (H : Nat) :
    (H < 5 → confirmed_cutoff_of_head H = none) ∧
    (5 ≤ H → confirmed_cutoff_of_head H = some (H - 5)) := by
  unfold confirmed_cutoff_of_head u64_sub
  constructor <;> intro h
  · rw [if_pos h]
  · rw [if_neg (by omega)]

/-- Witness for the amended C9 at heads 2 (panic) and 9 (cutoff 4). -/
theorem C9_cutoff_panics_witness :
    confirmed_cutoff_of_head 2 = none ∧ confirmed_cutoff_of_head 9 = some 4 :=
  ⟨(C9_cutoff_panics 2).1 (by decide), (C9_cutoff_panics 9).2 (by decide)⟩

end UniswapWatch
